import Mathlib

/-!
# Verification of the httpcache HTTP response cache

A shallow embedding of the core of the `httpcache` library (an RFC 9111
private HTTP response cache) together with proofs about its behaviour.

Conventions of the embedding:
* Instants and durations are `Int` nanoseconds (mirroring Go's `time.Time`
  instants and `time.Duration`, which is an `int64` nanosecond count).
* `http.Header` (a `map[string][]string` with canonicalized keys) is an
  association list `List (String × List String)`; lookups take the first
  matching key, mirroring a map with distinct keys.
* Fallible Go returns `(value, ok)` become `Option`.
* `*http.Response` values that may be `nil` become `Option HttpResponse`;
  a Go nil-pointer dereference is modelled by an explicit `nilPanic`
  outcome.
-/

namespace Httpcache

/-! ## Headers: association-list model of `http.Header` -/

/-- Model of Go's `http.Header`: a finite map from canonical header keys to
lists of values, represented as an association list. -/
def Headers := List (String × List String)

instance : DecidableEq Headers := by
  unfold Headers
  infer_instance

/-- Lookup of a header key (first matching entry), mirroring map indexing
`h[key]`. -/
def hGet (h : Headers) (k : String) : Option (List String) :=
  (h.find? (fun e => e.1 == k)).map (·.2)

/-- Model of Go's `http.Header.Get`: first value for the key, or `""`. -/
def headerGet (h : Headers) (k : String) : String :=
  match hGet h k with
  | some (v :: _) => v
  | _ => ""

/-- Model of Go's `http.Header.Set`: replace all values of the key by a
single entry (replacing in place if present, appending otherwise). -/
def hSet (h : Headers) (k : String) (v : List String) : Headers :=
  match h with
  | [] => [(k, v)]
  | e :: rest => if e.1 == k then (k, v) :: rest else e :: hSet rest k v

/-- The keys of a header map. -/
def hKeys (h : Headers) : List String := h.map (·.1)

theorem hGet_hSet_self (h : Headers) (k : String) (v : List String) :
    hGet (hSet h k v) k = some v := by
  induction h with
  | nil => simp [hSet, hGet, List.find?]
  | cons e rest ih =>
    by_cases he : e.1 == k
    · simp [hSet, he, hGet, List.find?]
    · simp only [hSet, he, if_false, hGet, List.find?, he]
      simpa [hGet] using ih

theorem hGet_hSet_ne (h : Headers) (k k₂ : String) (v : List String)
    (hne : k₂ ≠ k) : hGet (hSet h k v) k₂ = hGet h k₂ := by
  induction h with
  | nil =>
    simp only [hSet, hGet, List.find?]
    have : (k == k₂) = false := by
      simp [beq_iff_eq]
      exact fun hc => hne hc.symm
    simp [this]
  | cons e rest ih =>
    by_cases he : e.1 == k
    · have h1 : (k == k₂) = false := by
        simp [beq_iff_eq]
        exact fun hc => hne hc.symm
      have h2 : e.1 = k := by simpa [beq_iff_eq] using he
      simp [hSet, he, hGet, List.find?, h1, h2]
    · simp only [hSet, he, if_false, hGet, List.find?]
      cases hc : (e.1 == k₂) with
      | true => simp
      | false => simpa [hGet] using ih

/-! ## Cache-Control tokenization and directive parsing

Translated from the source (`RawDeltaSeconds`, `TrimmedCSVSeq`,
`directivesSeq2`, `parseDirectives` and the directive accessors). -/

/-- Whitespace trimmed by Go's `textproto.TrimString`: space and tab. -/
def isOWS (c : Char) : Bool := c = ' ' || c = '\t'

/-- Trim leading and trailing spaces/tabs (Go `textproto.TrimString`). -/
def trimOWS (s : String) : String :=
  String.mk (((s.toList.dropWhile isOWS).reverse.dropWhile isOWS).reverse)

/-- Splitter state machine of `TrimmedCSVSeq`: split on unquoted commas,
with one-level backslash escapes inside the scan. Returns the raw parts. -/
def csvSplitAux : List Char → Bool → Bool → List Char → List (List Char)
  | [], _, _, part => [part.reverse]
  | c :: rest, inQ, esc, part =>
    if esc then csvSplitAux rest inQ false (c :: part)
    else if c = '\\' then csvSplitAux rest inQ true (c :: part)
    else if c = '"' then csvSplitAux rest (!inQ) false (c :: part)
    else if c = ',' && !inQ then part.reverse :: csvSplitAux rest inQ false []
    else csvSplitAux rest inQ false (c :: part)

/-- Model of `TrimmedCSVSeq`: each unquoted-comma-separated part, trimmed,
empties dropped. -/
def trimmedCSV (s : String) : List String :=
  ((csvSplitAux s.toList false false []).map
    (fun cs => trimOWS (String.mk cs))).filter (· ≠ "")

/-- Go `strings.Cut(part, "=")`: split at the first `=`. -/
def cutEq (s : String) : String × String × Bool :=
  let cs := s.toList
  match cs.splitOnP (· = '=') with
  | [] => (s, "", false)
  | [_] => (s, "", false)
  | first :: rest =>
    (String.mk first, String.mk (String.intercalate "=" (rest.map String.mk)).toList, true)

/-- Model of `directivesSeq2` + `maps.Collect` (`parseDirectives`): a map
from directive name to raw argument, later bindings replacing earlier ones
(Go map semantics). -/
def dirInsert (l : List (String × String)) (k v : String) : List (String × String) :=
  match l with
  | [] => [(k, v)]
  | e :: rest => if e.1 == k then (k, v) :: rest else e :: dirInsert rest k v

/-- `parseDirectives`: tokenises the `Cache-Control` value and collects the
`name[=value]` pairs into a map. -/
def parseDirectives (s : String) : List (String × String) :=
  (trimmedCSV s).foldl
    (fun acc part =>
      let (key, value, found) := cutEq part
      let key := if found then key else trimOWS part
      let value := if found then trimOWS value else ""
      if key.length = 0 then acc else dirInsert acc key value)
    []

/-- Directive lookup (Go map indexing with `ok`). -/
def dirLookup (d : List (String × String)) (k : String) : Option String :=
  (d.find? (fun e => e.1 == k)).map (·.2)

/-- `hasToken`. -/
def hasToken (d : List (String × String)) (token : String) : Bool :=
  (dirLookup d token).isSome

/-- `ParseCCRequestDirectives` / `ParseCCResponseDirectives`: parse the
`Cache-Control` header; an absent header gives the empty (nil) map. -/
def parseCCDirectives (h : Headers) : List (String × String) :=
  match headerGet h "Cache-Control" with
  | "" => []
  | v => parseDirectives v

/-! ### `RawDeltaSeconds.Value` -/

/-- Decimal digit test used by `strconv.ParseInt`. -/
def isDigitC (c : Char) : Bool := '0' ≤ c && c ≤ '9'

/-- Numeric value of a list of decimal digits. -/
def digitsToNat (ds : List Char) : Nat :=
  ds.foldl (fun a c => a * 10 + (c.toNat - '0'.toNat)) 0

/-- Model of `strconv.ParseInt(s, 10, 64)`: optional sign, decimal digits,
error on empty digits, bad characters, or values outside the `int64`
range. -/
def parseInt64 (s : String) : Option Int :=
  let cs := s.toList
  let signAndDigits : Bool × List Char :=
    match cs with
    | '+' :: rest => (false, rest)
    | '-' :: rest => (true, rest)
    | _ => (false, cs)
  let neg := signAndDigits.1
  let ds := signAndDigits.2
  if ds.isEmpty then none
  else if ds.all isDigitC then
    let v : Int := if neg then -(digitsToNat ds : Int) else (digitsToNat ds : Int)
    if v < -(2 ^ 63) || v > 2 ^ 63 - 1 then none else some v
  else none

/-- Wrap an integer into `int64` two's-complement range (Go's wrapping
multiplication semantics). -/
def wrap64 (x : Int) : Int := (x + 2 ^ 63) % 2 ^ 64 - 2 ^ 63

/-- `RawDeltaSeconds.Value`: empty or leading `-` is invalid; otherwise
`strconv.ParseInt(s, 10, 64)` (whose range error also makes the directive
invalid), and the parsed seconds are converted to a duration by the
(wrapping) `int64` multiplication with `time.Second`. -/
def rawDeltaSecondsValue (r : String) : Option Int :=
  match r.toList with
  | [] => none
  | c :: _ =>
    if c = '-' then none
    else
      match parseInt64 r with
      | some seconds => some (wrap64 (seconds * 1000000000))
      | none => none

/-- `getDurationDirective`. -/
def getDurationDirective (d : List (String × String)) (token : String) : Option Int :=
  match dirLookup d token with
  | some v => rawDeltaSecondsValue v
  | none => none

/-! ## HTTP data model -/

/-- An HTTP response (`*http.Response`): status code, header, body. -/
structure HttpResponse where
  status : Nat
  header : Headers
  body : String
  deriving DecidableEq

/-- An HTTP request (`*http.Request`): the parts the handler inspects. -/
structure HttpRequest where
  method : String
  header : Headers
  deriving DecidableEq

/-- A cached response entry (`internal.Response`): the stored data with its
timing metadata. -/
structure StoredResponse where
  data : HttpResponse
  requestedAt : Int
  receivedAt : Int
  id : String
  deriving DecidableEq

/-- `internal.Age`: an age value valid at a timestamp. -/
structure Age where
  value : Int
  timestamp : Int
  deriving DecidableEq

/-- `internal.Freshness`. -/
structure Freshness where
  isStale : Bool
  age : Age
  usefulLife : Int
  deriving DecidableEq

/-! ## Header helpers

Translated from `internal/helpers.go`. -/

/-- Token characters of an HTTP header field name (Go
`textproto.validHeaderFieldByte`). -/
def isTokenChar (c : Char) : Bool :=
  c.isAlphanum || "!#$%&'*+-.^_`|~".contains c

/-- Case transformation step of `textproto.CanonicalMIMEHeaderKey`. -/
def canonAux : Bool → List Char → List Char
  | _, [] => []
  | up, c :: rest =>
    (if up then c.toUpper else c.toLower) :: canonAux (c = '-') rest

/-- Model of `http.CanonicalHeaderKey`: canonicalize a valid field name
(capital letter at the start and after each hyphen, lowercase elsewhere);
names containing invalid bytes are returned unchanged. -/
def canonicalHeaderKey (s : String) : String :=
  if s.toList.all isTokenChar then String.mk (canonAux true s.toList) else s

/-- The statically hop-by-hop header names of `hopByHopHeaders`
(RFC 9110 §7.6.1 plus the proxy headers of RFC 9111 §3.1). -/
def staticHopByHop : List String :=
  ["Connection", "Proxy-Connection", "Keep-Alive", "TE", "Transfer-Encoding",
   "Upgrade", "Proxy-Authenticate", "Proxy-Authentication-Info",
   "Proxy-Authorization"]

/-- Model of `hopByHopHeaders(respHeader)` as a list of keys: the static
set plus every (canonicalized) field listed in the response's `Connection`
header. -/
def hopByHopHeaders (respHeader : Headers) : List String :=
  staticHopByHop ++
    (trimmedCSV (headerGet respHeader "Connection")).map canonicalHeaderKey

/-- Membership in the omitted set of `updateStoredHeaders`: hop-by-hop
fields of the validation response plus `Content-Length`. -/
def isOmitted (respHeader : Headers) (k : String) : Bool :=
  (hopByHopHeaders respHeader).contains k || k == "Content-Length"

/-- `updateStoredHeaders` (RFC 9111 §3.2): copy every header field of the
validation response into the stored header, except the omitted fields. -/
def updateStoredHeaders (storedHdr respHdr : Headers) : Headers :=
  respHdr.foldl
    (fun acc e => if isOmitted respHdr e.1 then acc else hSet acc e.1 e.2)
    storedHdr

/-- `isStaleErrorAllowed` (RFC 5861 §4): 500, 502, 503 or 504. -/
def isStaleErrorAllowed (code : Nat) : Bool :=
  code = 500 || code = 502 || code = 503 || code = 504

/-- The `X-Httpcache-Status` response header. -/
def cacheStatusHeader : String := "X-Httpcache-Status"

/-- `CacheStatus.ApplyTo`: set the cache status header. -/
def applyStatus (tag : String) (resp : HttpResponse) : HttpResponse :=
  { resp with header := hSet resp.header cacheStatusHeader [tag] }

/-- `SetAgeHeader`: set `Age` to the (clamped, truncated) seconds of the
age extrapolated to `now`. -/
def setAgeHeader (now : Int) (resp : HttpResponse) (age : Age) : HttpResponse :=
  let adjusted := max (age.value + (now - age.timestamp)) 0
  { resp with header := hSet resp.header "Age" [toString (adjusted / 1000000000)] }

/-- `IsUnsafeMethod`: POST, PUT, DELETE or PATCH. -/
def isUnsafeMethod (req : HttpRequest) : Bool :=
  req.method = "POST" || req.method = "PUT" || req.method = "DELETE" ||
    req.method = "PATCH"

/-- `IsNonErrorStatus`: 2xx or 3xx. -/
def isNonErrorStatus (status : Nat) : Bool := 200 ≤ status && status < 400

/-! ## Stale-if-error policy and cacheability evaluator

The implementations of `staleIfErrorPolicy.CanStaleOnError` and
`canStoreResponse` are absent from the sources (only their interfaces,
call sites and tests are present); they are modelled from the
specification, cross-checked against the in-tree tests
(`Test_staleIfErrorPolicy_CanStaleOnError`, `Test_canStoreResponse`,
`Test_isStatusUnderstood`). -/

/-- Modelled from the spec: the `staleIfErrorPolicy` (its source file is
not in the tree). Serving stale on error is permitted when one of the
supplied directive maps carries a valid `stale-if-error=n` and the
effective age exceeds the useful life by at most `n`
(`effective_age − useful_life ≤ n`). -/
def canStaleOnError (now : Int) (f : Freshness)
    (sies : List (List (String × String))) : Bool :=
  sies.any fun sie =>
    match getDurationDirective sie "stale-if-error" with
    | some n => decide (f.age.value + (now - f.age.timestamp) - f.usefulLife ≤ n)
    | none => false

/-- Status codes this cache understands, per the spec's §4.3 with 206
excluded as pinned by the in-tree `Test_isStatusUnderstood`. -/
def understoodStatuses : List Nat :=
  [200, 203, 300, 301, 304, 404, 405, 410, 414, 501, 308]

/-- Status codes eligible for heuristic freshness (the understood codes
plus 206, per the in-tree `Test_isHeuristicallyCacheableCode`). -/
def heuristicallyCacheableStatuses : List Nat := 206 :: understoodStatuses

/-- Modelled from the spec: `canStoreResponse` (`can_store`, its source
file is not in the tree). The status must be final and understood, no
`no-store` may be present on either side, and a status outside the
heuristically-cacheable set needs explicit freshness (`max-age` or
`Expires`) or `must-understand`. -/
def canStoreResponse (resp : HttpResponse)
    (ccReq ccResp : List (String × String)) : Bool :=
  200 ≤ resp.status && understoodStatuses.contains resp.status &&
    !(hasToken ccReq "no-store") && !(hasToken ccResp "no-store") &&
    (heuristicallyCacheableStatuses.contains resp.status ||
      hasToken ccResp "max-age" || headerGet resp.header "Expires" ≠ "" ||
      hasToken ccResp "must-understand")

/-! ## Validation response handler

Translated from `internal/validationresponsehandler.go`
(`HandleValidationResponse`). -/

/-- `internal.RevalidationContext`. -/
structure RevalidationContext where
  urlKey : String
  start : Int
  stop : Int
  ccReq : List (String × String)
  stored : StoredResponse
  refIndex : Int
  freshness : Freshness
  deriving DecidableEq

/-- Side effects requested by the handler (calls into the storer and the
invalidator, whose errors the handler discards). -/
inductive HandlerEffect where
  | storeResponse (urlKey : String) (refIndex : Int)
  | invalidateCache (urlKey : String)
  deriving DecidableEq

/-- Outcome of `HandleValidationResponse`: a returned response with its
side effects, a propagated transport error, or a Go nil-pointer panic. -/
inductive HandlerResult where
  | ok (resp : HttpResponse) (effects : List HandlerEffect)
  | transportError
  | nilPanic
  deriving DecidableEq

/-- `HandleValidationResponse`, with the upstream `(resp, err)` pair as
`Option HttpResponse` (`none` models `err != nil`, in which case the Go
`resp` pointer is nil). The `nilPanic` branch mirrors the evaluation of
`ParseCCResponseDirectives(resp.Header)` inside the second case's
condition: once `err != nil` and the method is GET the Go code
dereferences the nil response while building the policy's argument. -/
def handleValidationResponse (now : Int) (ctx : RevalidationContext)
    (req : HttpRequest) (upstream : Option HttpResponse) : HandlerResult :=
  match upstream with
  | some resp =>
    if req.method = "GET" ∧ resp.status = 304 then
      HandlerResult.ok
        (applyStatus "REVALIDATED"
          { ctx.stored.data with
              header := updateStoredHeaders ctx.stored.data.header resp.header })
        []
    else if isStaleErrorAllowed resp.status && req.method == "GET" &&
        canStaleOnError now ctx.freshness [parseCCDirectives resp.header] then
      HandlerResult.ok
        (applyStatus "STALE" (setAgeHeader now ctx.stored.data ctx.freshness.age))
        []
    else
      let ccResp := parseCCDirectives resp.header
      if canStoreResponse resp ctx.ccReq ccResp then
        HandlerResult.ok (applyStatus "MISS" resp)
          [HandlerEffect.storeResponse ctx.urlKey ctx.refIndex]
      else if isUnsafeMethod req && isNonErrorStatus resp.status then
        HandlerResult.ok (applyStatus "BYPASS" resp)
          [HandlerEffect.invalidateCache ctx.urlKey]
      else
        HandlerResult.ok (applyStatus "BYPASS" resp) []
  | none =>
    if req.method = "GET" then HandlerResult.nilPanic
    else HandlerResult.transportError

/-! ## Freshness and age calculation

The freshness calculator's source file is absent from the tree (only
`freshness_test.go` is present); the definitions below are modelled from
the specification (§4.4) and cross-checked against the in-tree tests
`Test_calculateCurrentAge`, `Test_heuristicFreshness` and
`Test_freshnessCalculator_CalculateFreshness`. HTTP date parsing
(`http.ParseTime`, standard library) is abstracted as a parameter
`pt : String → Option Int`. -/

/-- `RawTime.Value`: the empty string is invalid, otherwise parse with
`http.ParseTime` (abstracted as `pt`). -/
def rawTimeValue (pt : String → Option Int) (r : String) : Option Int :=
  if r.length = 0 then none else pt r

/-- The value of the `Age` header as a duration (0 when absent or
invalid). -/
def ageHeaderValue (h : Headers) : Int :=
  (rawDeltaSecondsValue (headerGet h "Age")).getD 0

/-- Modelled from the spec: `calculateCurrentAge` (RFC 9111 §4.2.3, its
source file is not in the tree). The corrected initial age is
`max(apparent_age, age_header + response_delay)` as pinned by the in-tree
`Test_calculateCurrentAge`. -/
def calculateCurrentAge (now : Int) (h : Headers)
    (date requestTime responseTime : Int) : Age :=
  let apparentAge := max (responseTime - date) 0
  let responseDelay := responseTime - requestTime
  let correctedAgeValue := ageHeaderValue h + responseDelay
  let correctedInitialAge := max apparentAge correctedAgeValue
  let residentTime := now - responseTime
  { value := correctedInitialAge + residentTime, timestamp := now }

/-- Modelled from the spec: `heuristicFreshness` (its source file is not
in the tree): a tenth of `Date − Last-Modified` when `Last-Modified` is
present, valid and not after `date`; otherwise 0. -/
def heuristicFreshness (pt : String → Option Int) (h : Headers) (date : Int) : Int :=
  match rawTimeValue pt (headerGet h "Last-Modified") with
  | some lm => if date < lm then 0 else (date - lm) / 10
  | none => 0

/-- Modelled from the spec: the useful-life computation of the freshness
calculator (its source file is not in the tree): request `max-age`, else
response `max-age`, else `Expires − Date` when both parse, else the
heuristic when `Date` parses, else 0. -/
def calculateUsefulLife (pt : String → Option Int)
    (reqCC resCC : List (String × String)) (h : Headers) : Int :=
  match getDurationDirective reqCC "max-age" with
  | some d => d
  | none =>
    match getDurationDirective resCC "max-age" with
    | some d => d
    | none =>
      match rawTimeValue pt (headerGet h "Expires"),
          rawTimeValue pt (headerGet h "Date") with
      | some e, some d => e - d
      | _, _ =>
        match rawTimeValue pt (headerGet h "Date") with
        | some d => heuristicFreshness pt h d
        | none => 0

/-! ## URL keyer

Translated from `internal/urlkeyer.go` (`makeURLKey`) and
`internal/helpers.go` (`defaultPort`, `splitHostPort`,
`validOptionalPort`). -/

/-- A parsed URL (`*net.url.URL`): the fields `makeURLKey` reads. `opq`
models the URL's opaque part and `escapedPath` the result of Go's
`URL.EscapedPath()`. -/
structure URL where
  opq : String
  scheme : String
  host : String
  escapedPath : String
  rawQuery : String
  fragment : String
  deriving DecidableEq

/-- ASCII lowercasing of Go's `strings.ToLower` (URL keys are ASCII),
modelled character-wise (Lean's `String.toLower` is not used because its
implementation does not reduce in the kernel). -/
def toLowerStr (s : String) : String := String.mk (s.toList.map Char.toLower)

/-- `defaultPort`. -/
def defaultPort (scheme : String) : String :=
  if scheme = "http" then "80" else if scheme = "https" then "443" else ""

/-- `validOptionalPort`: empty, or `:` followed by zero or more digits. -/
def validOptionalPort (port : List Char) : Bool :=
  match port with
  | [] => true
  | c :: rest => c = ':' && rest.all isDigitC

/-- The index of the last occurrence of `c` (Go
`strings.LastIndexByte`). -/
def lastIndexOfChar (l : List Char) (c : Char) : Option Nat :=
  match l with
  | [] => none
  | x :: rest =>
    match lastIndexOfChar rest c with
    | some i => some (i + 1)
    | none => if x = c then some 0 else none

/-- `splitHostPort`: split `host:port` at the last colon when the suffix
is a valid optional port, then strip IPv6 brackets from the host. -/
def splitHostPort (hostPort : String) : String × String :=
  let cs := hostPort.toList
  let hp : List Char × List Char :=
    match lastIndexOfChar cs ':' with
    | some colon =>
      if validOptionalPort (cs.drop colon) then (cs.take colon, cs.drop (colon + 1))
      else (cs, [])
    | none => (cs, [])
  let host :=
    match hp.1 with
    | '[' :: rest => if rest.getLast? = some ']' then rest.dropLast else hp.1
    | _ => hp.1
  (String.mk host, String.mk hp.2)

/-- `makeURLKey` (RFC 9111 §4.1): opaque URIs are lowercased verbatim;
otherwise scheme `://` host (with the port omitted when empty or equal to
the scheme default) and the escaped path, with `?raw-query` appended iff
non-empty, the whole result lowercased. -/
def makeURLKey (u : URL) : String :=
  if u.opq ≠ "" then toLowerStr u.opq
  else
    let hp := splitHostPort u.host
    let defaultP := defaultPort u.scheme
    let port := if hp.2 = "" then defaultP else hp.2
    let hostPort := if port ≠ "" && port ≠ defaultP then hp.1 ++ ":" ++ port else hp.1
    let result := u.scheme ++ "://" ++ hostPort ++ u.escapedPath
    let result := if u.rawQuery ≠ "" then result ++ "?" ++ u.rawQuery else result
    toLowerStr result

/-! ## Vary matcher and response storer

Translated from `internal/varymatcher.go` (`VaryHeadersMatch`,
`varyHeadersMatchOne`) and `internal/responsestorerer.go`
(`StoreResponse`). The header-value normalizer's source file is not in
the tree; it is abstracted as a parameter `hvn : String → String →
String` (field name and raw value to normalized value), mirroring the
`hvn` field of the `varyMatcher` struct. -/

/-- `internal.ResponseRef`: one variant descriptor of a URL's reference
list. -/
structure ResponseRef where
  vary : String
  varyResolved : List (String × String)
  receivedAt : Int
  responseID : String
  deriving DecidableEq

/-- ASCII whitespace of Go's `strings.TrimSpace` (the `Vary` values the
matcher handles are ASCII header values). -/
def isSpaceC (c : Char) : Bool :=
  c = ' ' || c = '\t' || c = '\n' || c = '\r' || c = '\x0b' || c = '\x0c'

/-- Go `strings.TrimSpace`. -/
def trimSpace (s : String) : String :=
  String.mk (((s.toList.dropWhile isSpaceC).reverse.dropWhile isSpaceC).reverse)

/-- Three-way integer comparison (Go `time.Time.Compare`). -/
def compareInt (a b : Int) : Int := if a < b then -1 else if a = b then 0 else 1

/-- The comparison function passed to `slices.SortFunc` by
`VaryHeadersMatch`: `Vary: "*"` sorts last, references with a non-empty
`Vary` sort before those without, ties break by `receivedAt`. -/
def refCmp (a b : ResponseRef) : Int :=
  let aVary := trimSpace a.vary
  let bVary := trimSpace b.vary
  let aIsStar := aVary = "*"
  let bIsStar := bVary = "*"
  if aIsStar && !bIsStar then 1
  else if bIsStar && !aIsStar then -1
  else
    let aHasVary := aVary ≠ ""
    let bHasVary := bVary ≠ ""
    if aHasVary && !bHasVary then -1
    else if !aHasVary && bHasVary then 1
    else compareInt a.receivedAt b.receivedAt

/-- The sort order induced by `refCmp`. -/
def refLe (a b : ResponseRef) : Prop := refCmp a b ≤ 0

instance : DecidableRel refLe := fun a b => Int.decLe (refCmp a b) 0

/-- The in-place `slices.SortFunc` of `VaryHeadersMatch`, modelled as a
sorting function on the reference list (Go's sort is unstable; any
`refCmp`-sorted permutation is a faithful model). -/
def sortRefs (refs : List ResponseRef) : List ResponseRef :=
  refs.insertionSort refLe

/-- `varyHeadersMatchOne`: a `Vary: "*"` reference never matches;
otherwise every resolved field must be present on the request and its
normalized first value must equal the stored one. -/
def varyHeadersMatchOne (hvn : String → String → String) (entry : ResponseRef)
    (reqHdr : Headers) : Bool :=
  if entry.vary = "*" then false
  else
    entry.varyResolved.all fun fv =>
      match hGet reqHdr fv.1 with
      | some (x :: _) => hvn fv.1 x == fv.2
      | _ => false

/-- The index of the first element satisfying `p` (the scan loop of
`VaryHeadersMatch`). -/
def findMatchIdx {α : Type} (p : α → Bool) : List α → Option Nat
  | [] => none
  | x :: xs => if p x then some 0 else (findMatchIdx p xs).map (· + 1)

/-- `VaryHeadersMatch`: sort the references in place, then return the
index of the first match. The returned list is the permuted reference
list the caller's slice now holds. -/
def varyHeadersMatch (hvn : String → String → String) (refs : List ResponseRef)
    (reqHdr : Headers) : List ResponseRef × Int × Bool :=
  let sorted := sortRefs refs
  match findMatchIdx (fun e => varyHeadersMatchOne hvn e reqHdr) sorted with
  | some i => (sorted, (i : Int), true)
  | none => (sorted, -1, false)

/-- The reference-list update of `StoreResponse` (lines 62–82): replace in
place at `refIndex` when it is in bounds, append otherwise. -/
def storeResponseRefs (refs : List ResponseRef) (refEntry : ResponseRef)
    (refIndex : Int) : List ResponseRef :=
  if refIndex < 0 || refIndex ≥ (refs.length : Int) then refs ++ [refEntry]
  else refs.set refIndex.toNat refEntry

/-- The reference-list data flow of `RoundTrip` (lines 198–223): the vary
matcher permutes the backend's reference list in place and the engine
hands that same (permuted) slice, with the match index, to the storer,
which persists the updated list. -/
def roundTripPersistedRefs (hvn : String → String → String)
    (backendRefs : List ResponseRef) (reqHdr : Headers)
    (newRef : ResponseRef) : List ResponseRef :=
  let m := varyHeadersMatch hvn backendRefs reqHdr
  storeResponseRefs m.1 newRef m.2.1

/-! ## Supporting lemmas -/

/-- The preference rank encoded by `refCmp`: references with a non-empty
`Vary` first, then references without one, then `Vary: "*"`. -/
def refRank (a : ResponseRef) : Nat :=
  if trimSpace a.vary = "*" then 2 else if trimSpace a.vary = "" then 1 else 0

theorem compareInt_nonpos (a b : Int) : compareInt a b ≤ 0 ↔ a ≤ b := by
  unfold compareInt
  by_cases h1 : a < b
  · simp [h1]
    omega
  · by_cases h2 : a = b
    · simp [h1, h2]
    · simp [h1, h2]
      omega

theorem refCmp_le_iff (a b : ResponseRef) :
    refCmp a b ≤ 0 ↔
      (refRank a < refRank b ∨
        (refRank a = refRank b ∧ a.receivedAt ≤ b.receivedAt)) := by
  have hstar : ∀ s : String, s = "*" → s ≠ "" := by
    intro s hs
    subst hs
    decide
  unfold refCmp refRank
  by_cases ha : trimSpace a.vary = "*" <;> by_cases hb : trimSpace b.vary = "*"
  · simp [ha, hb, compareInt_nonpos]
  · have hb2 := em (trimSpace b.vary = "")
    rcases hb2 with hb2 | hb2 <;> simp [ha, hb, hb2, hstar _ ha]
  · have ha2 := em (trimSpace a.vary = "")
    rcases ha2 with ha2 | ha2 <;> simp [ha, hb, ha2, hstar _ hb]
  · by_cases ha2 : trimSpace a.vary = "" <;> by_cases hb2 : trimSpace b.vary = "" <;>
      simp [ha, hb, ha2, hb2, compareInt_nonpos]

instance : IsTrans ResponseRef refLe where
  trans a b c hab hbc := by
    unfold refLe at *
    rw [refCmp_le_iff] at *
    omega

instance : IsTotal ResponseRef refLe where
  total a b := by
    unfold refLe
    rw [refCmp_le_iff, refCmp_le_iff]
    omega

theorem sortRefs_perm (refs : List ResponseRef) : (sortRefs refs).Perm refs :=
  List.perm_insertionSort refLe refs

theorem sortRefs_sorted (refs : List ResponseRef) : (sortRefs refs).Sorted refLe :=
  List.sorted_insertionSort refLe refs

theorem findMatchIdx_spec {α : Type} (p : α → Bool) (l : List α) (i : Nat)
    (h : findMatchIdx p l = some i) :
    ∃ hh : i < l.length, p (l.get ⟨i, hh⟩) = true := by
  induction l generalizing i with
  | nil => simp [findMatchIdx] at h
  | cons x xs ih =>
    by_cases hx : p x
    · simp [findMatchIdx, hx] at h
      subst h
      exact ⟨by simp, by simpa using hx⟩
    · simp [findMatchIdx, hx] at h
      obtain ⟨j, hj, hji⟩ := h
      obtain ⟨hlt, hp⟩ := ih j hj
      subst hji
      exact ⟨by simpa using hlt, by simpa using hp⟩

/-- Per-key behaviour of the header-copy fold of `updateStoredHeaders`,
assuming the map invariant (distinct keys) on the source header. -/
theorem fold_hSet_lookup (resp : Headers) (L : List (String × List String))
    (acc : Headers) (k : String) (hn : (L.map (·.1)).Nodup) :
    hGet (L.foldl (fun acc e => if isOmitted resp e.1 then acc else hSet acc e.1 e.2) acc) k =
      (if isOmitted resp k then hGet acc k
       else
        match (L.find? (fun e => e.1 == k)).map (·.2) with
        | some v => some v
        | none => hGet acc k) := by
  induction L generalizing acc with
  | nil => by_cases ho : isOmitted resp k <;> simp [ho]
  | cons e rest ih =>
    simp only [List.map_cons, List.nodup_cons] at hn
    obtain ⟨hke, hrest⟩ := hn
    by_cases hek : e.1 = k
    · subst hek
      by_cases ho : isOmitted resp e.1
      · simp only [List.foldl_cons, ho, if_true]
        rw [ih _ hrest]
        simp [ho]
      · simp only [List.foldl_cons, ho, if_false]
        rw [ih _ hrest]
        have hfind : rest.find? (fun x => x.1 == e.1) = none := by
          rw [List.find?_eq_none]
          intro x hx
          simp only [beq_iff_eq]
          intro hc
          exact hke (hc ▸ List.mem_map_of_mem (·.1) hx)
        simp [ho, hfind, hGet_hSet_self, List.find?]
    · have hne : k ≠ e.1 := fun hc => hek hc.symm
      by_cases hoe : isOmitted resp e.1
      · simp only [List.foldl_cons, hoe, if_true]
        rw [ih _ hrest]
        have : (e.1 == k) = false := by simpa using hek
        simp [List.find?, this]
      · simp only [List.foldl_cons, hoe, if_false]
        rw [ih _ hrest]
        have hbeq : (e.1 == k) = false := by simpa using hek
        by_cases hok : isOmitted resp k
        · simp [hok, hGet_hSet_ne _ _ _ _ hne]
        · simp only [hok, if_false, List.find?, hbeq]
          cases hfind : rest.find? (fun x => x.1 == k) with
          | some v => simp
          | none => simp [hGet_hSet_ne _ _ _ _ hne]

theorem updateStoredHeaders_lookup (storedHdr respHdr : Headers) (k : String)
    (hn : (hKeys respHdr).Nodup) :
    hGet (updateStoredHeaders storedHdr respHdr) k =
      (if isOmitted respHdr k then hGet storedHdr k
       else
        match hGet respHdr k with
        | some v => some v
        | none => hGet storedHdr k) := by
  unfold updateStoredHeaders
  exact fold_hSet_lookup respHdr respHdr storedHdr k hn

/-- `canStaleOnError` with a single directive map (the handler's call
shape), unfolded to the directive condition. -/
theorem canStaleOnError_singleton (now : Int) (f : Freshness)
    (d : List (String × String)) :
    canStaleOnError now f [d] = true ↔
      ∃ n, getDurationDirective d "stale-if-error" = some n ∧
        f.age.value + (now - f.age.timestamp) - f.usefulLife ≤ n := by
  unfold canStaleOnError
  cases hd : getDurationDirective d "stale-if-error" with
  | none => simp [hd]
  | some n => simp [hd]

/-- A 500/502/503/504 response is never storable (its status is not
understood). -/
theorem canStore_5xx_false (resp : HttpResponse)
    (ccReq ccResp : List (String × String))
    (hs : isStaleErrorAllowed resp.status = true) :
    canStoreResponse resp ccReq ccResp = false := by
  have hconc : ((resp.status = 500 ∨ resp.status = 502) ∨ resp.status = 503) ∨
      resp.status = 504 := by
    unfold isStaleErrorAllowed at hs
    simpa using hs
  have hu : understoodStatuses.contains resp.status = false := by
    rcases hconc with ((h | h) | h) | h <;> rw [h] <;> decide
  unfold canStoreResponse
  rw [hu]
  simp

/-! ## Claim theorems -/

/-- Concrete inputs shared by the evidence theorems below. -/
def exStored : StoredResponse :=
  ⟨⟨200, [("ETag", ["abc"]), ("Content-Length", ["123"])], "hello"⟩, 0, 0, "k#0"⟩

def exCtx : RevalidationContext := ⟨"k", 0, 0, [], exStored, 0, ⟨true, ⟨0, 0⟩, 0⟩⟩

def ex304 : HttpResponse :=
  ⟨304, [("X-New", ["v"]), ("Content-Length", ["999"]),
         ("Connection", ["close, X-Drop"]), ("X-Drop", ["z"])], ""⟩

/-- C1: for every synchronous or background revalidation of a GET request
in which the upstream call returns no error and a 304 Not Modified
response, the handler updates the stored response's headers with every
header field of the 304 except hop-by-hop fields and `Content-Length`
(those keep their stored values), returns the stored response, and tags
it `REVALIDATED`. -/
theorem revalidation304_updates_and_tags
    (now : Int) (ctx : RevalidationContext) (req : HttpRequest)
    (resp : HttpResponse) (hm : req.method = "GET") (hs : resp.status = 304)
    (hn : (hKeys resp.header).Nodup) :
    ∃ upd : HttpResponse,
      handleValidationResponse now ctx req (some resp) = HandlerResult.ok upd [] ∧
      upd.status = ctx.stored.data.status ∧
      upd.body = ctx.stored.data.body ∧
      hGet upd.header cacheStatusHeader = some ["REVALIDATED"] ∧
      (∀ k, k ≠ cacheStatusHeader →
        hGet upd.header k =
          if isOmitted resp.header k then hGet ctx.stored.data.header k
          else
            match hGet resp.header k with
            | some v => some v
            | none => hGet ctx.stored.data.header k) := by
  have h1 : handleValidationResponse now ctx req (some resp) =
      HandlerResult.ok
        (applyStatus "REVALIDATED"
          { ctx.stored.data with
              header := updateStoredHeaders ctx.stored.data.header resp.header })
        [] := by
    unfold handleValidationResponse
    simp [hm, hs]
  refine ⟨_, h1, rfl, rfl, ?_, ?_⟩
  · simpa [applyStatus] using hGet_hSet_self _ _ _
  · intro k hk
    show hGet (hSet _ cacheStatusHeader _) k = _
    rw [hGet_hSet_ne _ _ _ _ hk]
    exact updateStoredHeaders_lookup _ _ _ hn

theorem revalidation304_witness :
    ∃ upd : HttpResponse,
      handleValidationResponse 0 exCtx ⟨"GET", []⟩ (some ex304) =
        HandlerResult.ok upd [] ∧
      upd.status = exCtx.stored.data.status ∧
      upd.body = exCtx.stored.data.body ∧
      hGet upd.header cacheStatusHeader = some ["REVALIDATED"] ∧
      (∀ k, k ≠ cacheStatusHeader →
        hGet upd.header k =
          if isOmitted ex304.header k then hGet exCtx.stored.data.header k
          else
            match hGet ex304.header k with
            | some v => some v
            | none => hGet exCtx.stored.data.header k) :=
  revalidation304_updates_and_tags 0 exCtx ⟨"GET", []⟩ ex304 rfl rfl (by decide)

/-- C2 (code-bug evidence): when the upstream transport fails during
synchronous revalidation of a GET request, the Go `resp` pointer is nil
and the second case's condition still evaluates
`ParseCCResponseDirectives(resp.Header)`, so instead of propagating the
transport error (or consulting stale-if-error) the handler dereferences
a nil pointer. -/
theorem transportError_get_revalidation_panics :
    handleValidationResponse 0 exCtx ⟨"GET", []⟩ none = HandlerResult.nilPanic ∧
    handleValidationResponse 0 exCtx ⟨"HEAD", []⟩ none =
      HandlerResult.transportError := by
  constructor <;> rfl

/-- Concrete inputs refuting C3 as stated: the stored response carries
`stale-if-error=60` and is stale by only 5 seconds, yet the 503
validation response (which carries no directive of its own) is returned
tagged `BYPASS` instead of the stored response being served stale. -/
def c3stored : StoredResponse :=
  ⟨⟨200, [("ETag", ["abc"]), ("Cache-Control", ["stale-if-error=60"])], "hello"⟩,
    0, 0, "k#0"⟩

def c3fr : Freshness := ⟨true, ⟨20000000000, 0⟩, 15000000000⟩

def c3ctx : RevalidationContext := ⟨"k", 0, 0, [], c3stored, 0, c3fr⟩

/-- C3 (counterexample): the stored response's `stale-if-error=60` is
present and the staleness bound holds, yet the handler does not serve the
stored response stale on a 503 — it consults only the validation
response's directives, so the 503 comes back tagged `BYPASS`. -/
theorem staleIfError_stored_directive_counterexample :
    getDurationDirective (parseCCDirectives c3stored.data.header) "stale-if-error" =
      some 60000000000 ∧
    c3fr.age.value + (0 - c3fr.age.timestamp) - c3fr.usefulLife ≤ 60000000000 ∧
    c3stored.data.status = 200 ∧
    handleValidationResponse 0 c3ctx ⟨"GET", []⟩ (some ⟨503, [], ""⟩) =
      HandlerResult.ok ⟨503, [(cacheStatusHeader, ["BYPASS"])], ""⟩ [] := by
  refine ⟨by decide, by decide, rfl, by decide⟩

/-- C3 (amended): for every revalidation of a GET request that ends in a
500, 502, 503 or 504 response, the stored response is served stale
(tagged `STALE`, with an updated `Age` header) if and only if the
**validation response's** `stale-if-error=n` directive is present with a
valid value and `effective_age − useful_life ≤ n`. (A transport error
instead dereferences a nil response, and an empty directive value is
invalid, hence treated as absent.) -/
theorem staleIfError_5xx_iff
    (now : Int) (ctx : RevalidationContext) (req : HttpRequest)
    (resp : HttpResponse) (hm : req.method = "GET")
    (hs : isStaleErrorAllowed resp.status = true) :
    (handleValidationResponse now ctx req (some resp) =
        HandlerResult.ok
          (applyStatus "STALE" (setAgeHeader now ctx.stored.data ctx.freshness.age))
          [])
      ↔ ∃ n, getDurationDirective (parseCCDirectives resp.header) "stale-if-error" =
            some n ∧
          ctx.freshness.age.value + (now - ctx.freshness.age.timestamp) -
            ctx.freshness.usefulLife ≤ n := by
  have h304 : ¬(req.method = "GET" ∧ resp.status = 304) := by
    rintro ⟨-, h⟩
    rw [h] at hs
    exact absurd hs (by decide)
  have hstale : HandlerResult.ok (applyStatus "BYPASS" resp) [] ≠
      HandlerResult.ok
        (applyStatus "STALE" (setAgeHeader now ctx.stored.data ctx.freshness.age))
        [] := by
    intro heq
    have hresp := (HandlerResult.ok.injEq _ _ _ _).mp heq |>.1
    have := congrArg (fun r => hGet r.header cacheStatusHeader) hresp
    simp only [applyStatus, hGet_hSet_self] at this
    exact absurd (List.cons.injEq _ _ _ _ |>.mp (Option.some.injEq _ _ |>.mp this) |>.1)
      (by decide)
  rw [← canStaleOnError_singleton now ctx.freshness (parseCCDirectives resp.header)]
  have hres : handleValidationResponse now ctx req (some resp) =
      (if canStaleOnError now ctx.freshness [parseCCDirectives resp.header] = true
       then
        HandlerResult.ok
          (applyStatus "STALE" (setAgeHeader now ctx.stored.data ctx.freshness.age)) []
       else HandlerResult.ok (applyStatus "BYPASS" resp) []) := by
    simp only [handleValidationResponse]
    rw [if_neg h304]
    have hcs := canStore_5xx_false resp ctx.ccReq (parseCCDirectives resp.header) hs
    have hunsafe : isUnsafeMethod req = false := by
      unfold isUnsafeMethod
      rw [hm]
      decide
    by_cases hc : canStaleOnError now ctx.freshness [parseCCDirectives resp.header] = true
    · simp [hs, hm, hc]
    · simp [hs, hm, hc, hcs, hunsafe]
  rw [hres]
  by_cases hc : canStaleOnError now ctx.freshness [parseCCDirectives resp.header] = true
  · simp [hc]
  · rw [if_neg hc]
    exact iff_of_false hstale hc

theorem staleIfError_5xx_iff_witness :
    handleValidationResponse 0 c3ctx ⟨"GET", []⟩
        (some ⟨503, [("Cache-Control", ["stale-if-error=60"])], ""⟩) =
      HandlerResult.ok
        (applyStatus "STALE" (setAgeHeader 0 c3ctx.stored.data c3ctx.freshness.age))
        [] :=
  (staleIfError_5xx_iff 0 c3ctx ⟨"GET", []⟩
      ⟨503, [("Cache-Control", ["stale-if-error=60"])], ""⟩ rfl (by decide)).mpr
    ⟨60000000000, by decide, by decide⟩

/-- C4: the useful life is determined in this order: the request's
`max-age` if present (and valid); else the response's `max-age` if
present (and valid); else `Expires − Date` when both parse; else, when
`Last-Modified` is present, valid and not after `Date`, a tenth of
`Date − Last-Modified`; else 0 (also when `Date` itself is unusable). -/
theorem usefulLife_priority (pt : String → Option Int)
    (reqCC resCC : List (String × String)) (h : Headers) :
    (∀ n, getDurationDirective reqCC "max-age" = some n →
        calculateUsefulLife pt reqCC resCC h = n) ∧
    (getDurationDirective reqCC "max-age" = none →
      (∀ n, getDurationDirective resCC "max-age" = some n →
          calculateUsefulLife pt reqCC resCC h = n) ∧
      (getDurationDirective resCC "max-age" = none →
        (∀ e d, rawTimeValue pt (headerGet h "Expires") = some e →
            rawTimeValue pt (headerGet h "Date") = some d →
            calculateUsefulLife pt reqCC resCC h = e - d) ∧
        (rawTimeValue pt (headerGet h "Date") = none →
            calculateUsefulLife pt reqCC resCC h = 0) ∧
        (rawTimeValue pt (headerGet h "Expires") = none →
          ∀ d, rawTimeValue pt (headerGet h "Date") = some d →
            (∀ l, rawTimeValue pt (headerGet h "Last-Modified") = some l →
                (l ≤ d → calculateUsefulLife pt reqCC resCC h = (d - l) / 10) ∧
                (d < l → calculateUsefulLife pt reqCC resCC h = 0)) ∧
            (rawTimeValue pt (headerGet h "Last-Modified") = none →
                calculateUsefulLife pt reqCC resCC h = 0)))) := by
  refine ⟨?_, fun hreq => ⟨?_, fun hres => ⟨?_, ?_, ?_⟩⟩⟩
  · intro n hn
    simp [calculateUsefulLife, hn]
  · intro n hn
    simp [calculateUsefulLife, *]
  · intro e d he hd
    simp [calculateUsefulLife, *]
  · intro hd
    cases he : rawTimeValue pt (headerGet h "Expires") <;>
      simp [calculateUsefulLife, *]
  · intro he d hd
    constructor
    · intro l hl
      constructor <;> intro hcmp
      · have : ¬ d < l := by omega
        simp [calculateUsefulLife, heuristicFreshness, *]
      · simp [calculateUsefulLife, heuristicFreshness, *]
    · intro hl
      simp [calculateUsefulLife, heuristicFreshness, *]

/-- A stand-in for `http.ParseTime` used by concrete witnesses: parses a
decimal count of seconds. -/
def ptSeconds (s : String) : Option Int :=
  (parseInt64 s).map (· * 1000000000)

theorem usefulLife_priority_witness :
    calculateUsefulLife ptSeconds [("max-age", "15")] [("max-age", "25")]
        [("Date", ["100"])] = 15000000000 ∧
    calculateUsefulLife ptSeconds [] [("max-age", "25")] [("Date", ["100"])] =
      25000000000 ∧
    calculateUsefulLife ptSeconds [] [] [("Date", ["100"]), ("Expires", ["160"])] =
      60000000000 ∧
    calculateUsefulLife ptSeconds [] [] [("Date", ["100"]), ("Last-Modified", ["40"])] =
      6000000000 := by
  refine ⟨?_, ?_, ?_, ?_⟩
  · exact (usefulLife_priority ptSeconds [("max-age", "15")] [("max-age", "25")]
      [("Date", ["100"])]).1 15000000000 (by decide)
  · exact ((usefulLife_priority ptSeconds [] [("max-age", "25")]
      [("Date", ["100"])]).2 (by decide)).1 25000000000 (by decide)
  · exact (((usefulLife_priority ptSeconds [] []
      [("Date", ["100"]), ("Expires", ["160"])]).2 (by decide)).2 (by decide)).1
      160000000000 100000000000 (by decide) (by decide)
  · exact ((((((usefulLife_priority ptSeconds [] []
      [("Date", ["100"]), ("Last-Modified", ["40"])]).2 (by decide)).2
      (by decide)).2.2 (by decide) 100000000000 (by decide)).1 40000000000
      (by decide)).1 (by decide))

/-- C5 (counterexample): on the repository's own test vector (`Age: 10`,
`date = base`, `request_time = base+10s`, `response_time = base+15s`,
`now = base+25s`) the computed age is 25 s — the value the in-tree
`Test_calculateCurrentAge` asserts — while the claim's formula
`max(age_header, max(0, response_time − date)) + (response_time −
request_time) + (now − response_time)` gives 30 s. -/
theorem currentAge_claim_counterexample :
    (calculateCurrentAge 25000000000 [("Age", ["10"])] 0 10000000000
        15000000000).value = 25000000000 ∧
    max (ageHeaderValue [("Age", ["10"])]) (max 0 (15000000000 - 0)) +
        (15000000000 - 10000000000) + (25000000000 - 15000000000) =
      (30000000000 : Int) ∧
    (25000000000 : Int) ≠ 30000000000 := by
  refine ⟨by decide, by decide, by decide⟩

/-- C5 (amended): the computed age record satisfies
`age.value = max(max(0, response_time − date), age_header +
(response_time − request_time)) + (now − response_time)` — the corrected
initial age is the maximum of the apparent age and the Age header plus
the response delay, per RFC 9111 §4.2.3 — and `age.timestamp = now`. -/
theorem currentAge_formula (now : Int) (h : Headers) (date rq rs : Int) :
    (calculateCurrentAge now h date rq rs).value =
      max (max (rs - date) 0) (ageHeaderValue h + (rs - rq)) + (now - rs) ∧
    (calculateCurrentAge now h date rq rs).timestamp = now :=
  ⟨rfl, rfl⟩

/-- A reference with `Vary: "*"` (never matched by the vary matcher). -/
def starRef : ResponseRef := ⟨"*", [], 0, "k#0"⟩

/-- A second store of a `Vary: "*"` response: same `vary_resolved` map as
`starRef`, later date. -/
def dupRef : ResponseRef := ⟨"*", [], 5, "k#0"⟩

/-- C6 (counterexample): a store of a response whose resolved Vary map
equals that of an existing `Vary: "*"` reference appends rather than
replaces, because the matcher cannot select the existing reference
(`refIndex = −1`), leaving two references with the same `vary_resolved`
map. -/
theorem storeReplace_counterexample :
    dupRef.varyResolved = starRef.varyResolved ∧
    varyHeadersMatch (fun _ v => v) [starRef] [] = ([starRef], -1, false) ∧
    storeResponseRefs [starRef] dupRef (-1) = [starRef, dupRef] ∧
    ([starRef, dupRef].length = 2) := by
  refine ⟨rfl, by decide, by decide, rfl⟩

/-- C6 (amended): `StoreResponse` replaces in place exactly at the
caller-supplied `refIndex` when it is in bounds (preserving the list
length) and appends otherwise; the decision engine passes the vary
matcher's index, so a store after a successful match replaces that
reference in place, but a store whose `refIndex` is `−1` appends even
when an existing reference carries an equal `vary_resolved` map (e.g.
a never-matching `Vary: "*"` reference). -/
theorem storeResponseRefs_semantics (refs : List ResponseRef)
    (e : ResponseRef) (i : Int) :
    (0 ≤ i → i < (refs.length : Int) →
      storeResponseRefs refs e i = refs.set i.toNat e ∧
        (storeResponseRefs refs e i).length = refs.length) ∧
    ((i < 0 ∨ (refs.length : Int) ≤ i) →
      storeResponseRefs refs e i = refs ++ [e]) := by
  constructor
  · intro h0 hlt
    have hcond : ¬(i < 0 || i ≥ (refs.length : Int)) = true := by
      simp only [Bool.or_eq_true, decide_eq_true_eq]
      omega
    unfold storeResponseRefs
    rw [if_neg hcond]
    exact ⟨rfl, by simp⟩
  · intro hcase
    have hcond : (i < 0 || i ≥ (refs.length : Int)) = true := by
      simp only [Bool.or_eq_true, decide_eq_true_eq]
      omega
    unfold storeResponseRefs
    rw [if_pos hcond]

theorem storeResponseRefs_semantics_witness :
    storeResponseRefs [starRef, dupRef] dupRef 0 = [dupRef, dupRef] ∧
    (storeResponseRefs [starRef, dupRef] dupRef 0).length = 2 ∧
    storeResponseRefs [starRef] dupRef (-1) = [starRef, dupRef] := by
  obtain ⟨h1, h2⟩ := (storeResponseRefs_semantics [starRef, dupRef] dupRef 0).1
    (by decide) (by decide)
  refine ⟨by simpa using h1, h2, ?_⟩
  simpa using (storeResponseRefs_semantics [starRef] dupRef (-1)).2 (Or.inl (by decide))

/-- C7: the vary matcher never returns the index of a reference whose
stored `Vary` header is `"*"`: matching against such a reference always
fails, whatever its position or resolved map, and a returned index
(after the in-place sort) always denotes a matching, non-`"*"`
reference. -/
theorem varyMatch_never_selects_star
    (hvn : String → String → String) (refs : List ResponseRef) (hdr : Headers)
    (sorted : List ResponseRef) (i : Int)
    (hEq : varyHeadersMatch hvn refs hdr = (sorted, i, true)) :
    (∀ e : ResponseRef, e.vary = "*" → varyHeadersMatchOne hvn e hdr = false) ∧
    0 ≤ i ∧
    ∃ hh : i.toNat < sorted.length,
      varyHeadersMatchOne hvn (sorted.get ⟨i.toNat, hh⟩) hdr = true ∧
      (sorted.get ⟨i.toNat, hh⟩).vary ≠ "*" := by
  have hfail : ∀ e : ResponseRef, e.vary = "*" →
      varyHeadersMatchOne hvn e hdr = false := by
    intro e he
    unfold varyHeadersMatchOne
    rw [if_pos he]
  refine ⟨hfail, ?_⟩
  simp only [varyHeadersMatch] at hEq
  cases hf : findMatchIdx (fun e => varyHeadersMatchOne hvn e hdr) (sortRefs refs) with
  | none =>
    rw [hf] at hEq
    simp only [Prod.mk.injEq] at hEq
    exact absurd hEq.2.2 (by decide)
  | some j =>
    rw [hf] at hEq
    simp only [Prod.mk.injEq] at hEq
    obtain ⟨hsorted, hij, -⟩ := hEq
    obtain ⟨hlt, hp⟩ := findMatchIdx_spec _ _ _ hf
    subst hsorted
    refine ⟨by omega, ?_⟩
    have htn : i.toNat = j := by omega
    rw [htn]
    refine ⟨hlt, hp, ?_⟩
    intro hstar
    rw [hfail _ hstar] at hp
    exact absurd hp (by decide)

theorem varyMatch_never_selects_star_witness :
    (∀ e : ResponseRef, e.vary = "*" →
      varyHeadersMatchOne (fun _ v => v) e [] = false) ∧
    0 ≤ (0 : Int) ∧
    ∃ hh : (0 : Int).toNat < [⟨"", [], 9, "k#1"⟩, dupRef].length,
      varyHeadersMatchOne (fun _ v => v)
        (([⟨"", [], 9, "k#1"⟩, dupRef] : List ResponseRef).get
          ⟨(0 : Int).toNat, hh⟩) [] = true ∧
      (([⟨"", [], 9, "k#1"⟩, dupRef] : List ResponseRef).get
          ⟨(0 : Int).toNat, hh⟩).vary ≠ "*" :=
  varyMatch_never_selects_star (fun _ v => v)
    [dupRef, ⟨"", [], 9, "k#1"⟩] [] [⟨"", [], 9, "k#1"⟩, dupRef] 0 (by decide)

/-- A reference with a non-empty `Vary` that matches a request carrying
`Accept: x` under the identity normalizer. -/
def matchRef : ResponseRef := ⟨"Accept", [("Accept", "x")], 5, "k#b"⟩

/-- C10: `VaryHeadersMatch` sorts its input reference slice in place
(`Vary: "*"` last, non-empty `Vary` before empty, older `received_at`
first); the index it returns refers to the permuted list, and the
decision engine hands that permuted list to the storer, which persists
the permuted order rather than the order read from the backend. -/
theorem varyMatch_inplace_sort_and_persist
    (hvn : String → String → String) (refs : List ResponseRef) (hdr : Headers) :
    (varyHeadersMatch hvn refs hdr).1 = sortRefs refs ∧
    ((varyHeadersMatch hvn refs hdr).1).Perm refs ∧
    ((varyHeadersMatch hvn refs hdr).1).Sorted refLe ∧
    (∀ a b, refLe a b ↔
      (refRank a < refRank b ∨
        (refRank a = refRank b ∧ a.receivedAt ≤ b.receivedAt))) ∧
    ((varyHeadersMatch hvn refs hdr).2.2 = true →
      ∃ e, (varyHeadersMatch hvn refs hdr).1.get?
          (varyHeadersMatch hvn refs hdr).2.1.toNat = some e ∧
        varyHeadersMatchOne hvn e hdr = true) ∧
    (∀ newRef, roundTripPersistedRefs hvn refs hdr newRef =
      storeResponseRefs (sortRefs refs) newRef
        (varyHeadersMatch hvn refs hdr).2.1) ∧
    sortRefs [starRef, matchRef] = [matchRef, starRef] := by
  have hfst : (varyHeadersMatch hvn refs hdr).1 = sortRefs refs := by
    simp only [varyHeadersMatch]
    cases hfi : findMatchIdx (fun e => varyHeadersMatchOne hvn e hdr)
        (sortRefs refs) <;> simp [hfi]
  refine ⟨hfst, hfst ▸ sortRefs_perm refs, hfst ▸ sortRefs_sorted refs,
    fun a b => refCmp_le_iff a b, ?_, ?_, by decide⟩
  · intro hfound
    revert hfound
    simp only [varyHeadersMatch]
    cases hfi : findMatchIdx (fun e => varyHeadersMatchOne hvn e hdr)
        (sortRefs refs) with
    | none => intro hfound; exact absurd hfound (by simp)
    | some j =>
      intro hfound
      obtain ⟨hlt, hp⟩ := findMatchIdx_spec _ _ _ hfi
      simp only [Int.toNat_natCast]
      exact ⟨_, List.get?_eq_get hlt, hp⟩
  · intro newRef
    show storeResponseRefs (varyHeadersMatch hvn refs hdr).1 newRef
        (varyHeadersMatch hvn refs hdr).2.1 = _
    rw [hfst]

theorem varyMatch_inplace_witness :
    (varyHeadersMatch (fun _ v => v) [starRef, matchRef] [("Accept", ["x"])]).1 =
      [matchRef, starRef] ∧
    [matchRef, starRef] ≠ [starRef, matchRef] ∧
    (∃ e, (varyHeadersMatch (fun _ v => v) [starRef, matchRef]
          [("Accept", ["x"])]).1.get?
          (varyHeadersMatch (fun _ v => v) [starRef, matchRef]
            [("Accept", ["x"])]).2.1.toNat = some e ∧
      varyHeadersMatchOne (fun _ v => v) e [("Accept", ["x"])] = true) ∧
    roundTripPersistedRefs (fun _ v => v) [starRef, matchRef] [("Accept", ["x"])]
        dupRef =
      storeResponseRefs (sortRefs [starRef, matchRef]) dupRef
        (varyHeadersMatch (fun _ v => v) [starRef, matchRef]
          [("Accept", ["x"])]).2.1 := by
  have h := varyMatch_inplace_sort_and_persist (fun _ v => v) [starRef, matchRef]
    [("Accept", ["x"])]
  exact ⟨h.1.trans h.2.2.2.2.2.2, by decide, h.2.2.2.2.1 (by decide),
    h.2.2.2.2.2.1 dupRef⟩

/-- C8 (counterexample): the whole URL key is lowercased, so the hex
digits of percent escapes in the escaped path come out lowercase, not
uppercase. -/
theorem urlKey_hex_lowercased :
    makeURLKey ⟨"", "http", "example.com", "/a%2Fb", "", ""⟩ =
      "http://example.com/a%2fb" ∧
    "http://example.com/a%2fb" ≠ "http://example.com/a%2Fb" := by
  exact ⟨by decide, by decide⟩

/-- C8 (amended): the URL key drops the fragment, omits the port when it
is empty or equal to the scheme default, appends `?` plus the raw query
iff the raw query is non-empty, and lowercases the entire assembled key —
scheme, host, escaped path (including the hex digits of its percent
escapes) and query alike. -/
theorem makeURLKey_canonical (u : URL) (h p : String)
    (ho : u.opq = "") (hsp : splitHostPort u.host = (h, p)) :
    (∀ f, makeURLKey { u with fragment := f } = makeURLKey u) ∧
    makeURLKey u =
      (let port := if p = "" then defaultPort u.scheme else p
       let hostPort :=
         if port = "" ∨ port = defaultPort u.scheme then h else h ++ ":" ++ port
       let base := u.scheme ++ "://" ++ hostPort ++ u.escapedPath
       if u.rawQuery = "" then toLowerStr base
       else toLowerStr (base ++ "?" ++ u.rawQuery)) := by
  refine ⟨fun f => rfl, ?_⟩
  unfold makeURLKey
  rw [if_neg (by simp [ho])]
  simp only [hsp]
  set q : String := if p = "" then defaultPort u.scheme else p with hqdef
  by_cases h1 : q = ""
  · by_cases hq : u.rawQuery = "" <;> simp [h1, hq]
  · by_cases h2 : q = defaultPort u.scheme
    · by_cases hq : u.rawQuery = "" <;> simp [h1, h2, hq]
    · by_cases hq : u.rawQuery = "" <;> simp [h1, h2, hq]

theorem makeURLKey_canonical_witness :
    makeURLKey ⟨"", "https", "EXAMPLE.com:443", "/P", "Q=1", "frag"⟩ =
      "https://example.com/p?q=1" ∧
    makeURLKey ⟨"", "https", "EXAMPLE.com:443", "/P", "Q=1", "other"⟩ =
      makeURLKey ⟨"", "https", "EXAMPLE.com:443", "/P", "Q=1", "frag"⟩ := by
  have h := makeURLKey_canonical ⟨"", "https", "EXAMPLE.com:443", "/P", "Q=1", "frag"⟩
    "EXAMPLE.com" "443" rfl (by decide)
  exact ⟨h.2.trans (by decide), h.1 "other"⟩

/-- C9 (counterexample): a duration argument just past the `int64` range
(2^63 seconds) is not clamped to an implementation maximum — the parse
error makes the directive invalid, hence treated as absent. -/
theorem overflow_treated_invalid :
    rawDeltaSecondsValue "9223372036854775808" = none ∧
    (none : Option Int) ≠ some (2 ^ 63 - 1) := by
  exact ⟨by decide, by decide⟩

/-- C9 (amended): a duration argument with a leading `-` is invalid and
the directive is treated as absent; an argument beyond the `int64` range
is likewise invalid (not clamped); arguments up to `2^63 − 1` seconds —
far beyond `2^31` — are accepted unclamped, the conversion to a
nanosecond duration wrapping in `int64` arithmetic. -/
theorem rawDeltaSeconds_semantics :
    (∀ (s : String) (cs : List Char), s.toList = '-' :: cs →
        rawDeltaSecondsValue s = none) ∧
    rawDeltaSecondsValue "9223372036854775808" = none ∧
    rawDeltaSecondsValue "2147483648" = some 2147483648000000000 ∧
    rawDeltaSecondsValue "9223372036854775807" = some (-1000000000) := by
  refine ⟨?_, by decide, by decide, by decide⟩
  intro s cs hs
  unfold rawDeltaSecondsValue
  rw [hs]
  simp

theorem rawDeltaSeconds_semantics_witness :
    rawDeltaSecondsValue "-5" = none :=
  rawDeltaSeconds_semantics.1 "-5" ['5'] (by decide)


/-! ## Model validation against the in-tree tests

The spec-modelled definitions reproduce the vectors of the repository's
own tests (`Test_calculateCurrentAge`, `Test_staleIfErrorPolicy_CanStaleOnError`,
`Test_canStoreResponse`, `Test_isStatusUnderstood`). -/

theorem currentAge_test_vectors :
    (calculateCurrentAge 25000000000 [("Age", ["10"])] 0 10000000000
        15000000000).value = 25000000000 ∧
    (calculateCurrentAge 30000000000 [] 0 10000000000 15000000000).value =
      30000000000 ∧
    (calculateCurrentAge 20000000000 [] 20000000000 10000000000
        15000000000).value = 10000000000 ∧
    (calculateCurrentAge 40000000000 [("Age", ["5"])] 0 10000000000
        15000000000).value = 40000000000 := by
  refine ⟨by decide, by decide, by decide, by decide⟩

theorem canStaleOnError_test_vectors :
    canStaleOnError 0 ⟨true, ⟨20000000000, 0⟩, 15000000000⟩
        [[("stale-if-error", "10")]] = true ∧
    canStaleOnError 0 ⟨true, ⟨20000000000, 0⟩, 15000000000⟩ [] = false ∧
    canStaleOnError 0 ⟨false, ⟨0, 0⟩, 0⟩ [[("stale-if-error", "")]] = false := by
  refine ⟨by decide, by decide, by decide⟩

theorem canStore_test_vectors :
    canStoreResponse ⟨102, [], ""⟩ [] [] = false ∧
    canStoreResponse ⟨206, [], ""⟩ [] [] = false ∧
    canStoreResponse ⟨200, [], ""⟩ []
        [("no-store", ""), ("must-understand", "")] = false ∧
    canStoreResponse ⟨304, [], ""⟩ [] [] = true := by
  refine ⟨by decide, by decide, by decide, by decide⟩

end Httpcache
